import Mathlib

/-!
Verification of the data_bot repository's core logic against its
natural-language specification.

The development shallowly embeds the relevant Python functions:

* `queryOllama` embeds `ollama_handler.query_ollama` (transport selection,
  prompt truncation, bounded retry loop, sticky API→CLI fallback);
* `prepareContext` embeds `ChatHandler._prepare_context` (context trimming
  against the 15000-character budget);
* `getChatHistoryResult` embeds the SQL contract of
  `DBHandler.get_chat_history` (ORDER BY timestamp DESC LIMIT n, reversed);
* `cleanPass` embeds the deterministic cleaning loop of
  `data_cleaner.clean_and_summarize` (duplicate removal followed by
  per-column missing-value handling).

Python strings are modelled as `List Char`, floats as `ℚ`, nullable cells
as `Option Val`, and the fallible transports as explicit environments.
-/

/-! ## Inference client (`ollama_handler.py`) -/

/-- Outcome of the availability probe `is_ollama_running`: the API health
check succeeds, or only the CLI listing succeeds, or neither does. -/
inductive Probe
  | apiUp
  | cliUp
  | down
deriving DecidableEq

/-- Environment of one `query_ollama` call: the probe outcome and, for the
n-th API (resp. CLI) transport call made during this invocation, its
result: `.ok response` or `.error message`. -/
structure OEnv where
  probe : Probe
  apiResult : Nat → Except String String
  cliResult : Nat → Except String String

/-- One transport call as observed from outside: which transport, which
prompt text was forwarded, and the outcome. -/
structure TCall where
  isApi : Bool
  sent : List Char
  outcome : Except String String

/-- Mutable state threaded through `query_ollama`: the process-wide
`USE_API` flag, the per-transport call counters and the call log. -/
structure QState where
  useApi : Bool
  apiCalls : Nat
  cliCalls : Nat
  callLog : List TCall

/-- Effect of `is_ollama_running` on the global `USE_API` flag: the API
probe sets it to true, the CLI probe to false, a failed probe leaves it
unchanged.  First component: whether Ollama is considered running. -/
def runProbe : Probe → Bool → Bool × Bool
  | .apiUp, _ => (true, true)
  | .cliUp, _ => (true, false)
  | .down, u => (false, u)

/-- Perform one API transport call (`query_ollama_api`), recording it. -/
def callApi (env : OEnv) (p : List Char) (st : QState) : Except String String × QState :=
  let r := env.apiResult st.apiCalls
  (r, { st with apiCalls := st.apiCalls + 1, callLog := st.callLog ++ [⟨true, p, r⟩] })

/-- Perform one CLI transport call (`query_ollama_cli`), recording it. -/
def callCli (env : OEnv) (p : List Char) (st : QState) : Except String String × QState :=
  let r := env.cliResult st.cliCalls
  (r, { st with cliCalls := st.cliCalls + 1, callLog := st.callLog ++ [⟨false, p, r⟩] })

/-- The `"..."` marker appended by the prompt truncation. -/
def truncMarker : List Char := ['.', '.', '.']

/-- Prompt truncation in `query_ollama`: prompts longer than 4000
characters become their first 3997 characters followed by `"..."`. -/
def truncatePrompt (p : List Char) : List Char :=
  if p.length > 4000 then p.take 3997 ++ truncMarker else p

/-- The generic error raised when `last_error` is `None` (unreachable in
practice). -/
def genericQueryError : String := "Failed to query Ollama after multiple attempts"

/-- The error raised when the availability probe fails. -/
def notRunningError : String := "Ollama is not running or installed. Please start Ollama service."

/-- The retry loop of `query_ollama`.  `fuel` is the number of attempts
still allowed (`max_retries + 1 - retry_count`); `lastErr` is Python's
`last_error`.  Returns the result, the final state, and the number of
attempts (loop iterations) consumed.  Within one attempt, if `USE_API`
holds and the API call fails, the flag is cleared and the CLI is tried
in-line; only if that also fails does the attempt count as failed. -/
def queryLoop (env : OEnv) (p : List Char) :
    Nat → QState → Option String → Except String String × QState × Nat
  | 0, st, lastErr => (.error (lastErr.getD genericQueryError), st, 0)
  | fuel + 1, st, lastErr =>
    if st.useApi then
      match callApi env p st with
      | (.ok r, st1) => (.ok r, st1, 1)
      | (.error _, st1) =>
        match callCli env p { st1 with useApi := false } with
        | (.ok r, st3) => (.ok r, st3, 1)
        | (.error ce, st3) =>
          let rest := queryLoop env p fuel st3 (some ce)
          (rest.1, rest.2.1, rest.2.2 + 1)
    else
      match callCli env p st with
      | (.ok r, st1) => (.ok r, st1, 1)
      | (.error ce, st1) =>
        let rest := queryLoop env p fuel st1 (some ce)
        (rest.1, rest.2.1, rest.2.2 + 1)

/-- Outcome of the last transport call of a log. -/
def lastOutcome (log : List TCall) : Option (Except String String) :=
  log.getLast?.map TCall.outcome

/-- Embedding of `query_ollama`: probe availability (which rewrites the
`USE_API` flag), fail fast when Ollama is unreachable, truncate the
prompt once, then run the bounded retry loop. -/
def queryOllama (env : OEnv) (useApi0 : Bool) (prompt : List Char) (maxRetries : Nat) :
    Except String String × QState × Nat :=
  let pr := runProbe env.probe useApi0
  let st0 : QState := ⟨pr.2, 0, 0, []⟩
  if pr.1 then
    queryLoop env (truncatePrompt prompt) (maxRetries + 1) st0 none
  else
    (.error notRunningError, st0, 0)

/-! ## Cleaning engine (`data_cleaner.py`) -/

/-- A cell value: pandas numeric scalars are modelled as exact rationals,
everything else as strings. -/
inductive Val
  | num (q : ℚ)
  | str (s : String)
deriving DecidableEq

/-- A nullable cell (`none` is NaN/null). -/
abbrev Cell := Option Val

/-- One table row. -/
abbrev Row := List Cell

/-- A DataFrame: per-column numeric-dtype flags plus the rows.  The
column count is `dtypes.length`; rows are expected to have that length. -/
structure Table where
  dtypes : List Bool
  rows : List Row
deriving DecidableEq

/-- One entry of `cleaning_steps`, keeping the data the log strings carry:
which column, how many rows/cells, and the value used. -/
inductive Step
  | dedup (removed : Nat)
  | dropRows (col : Nat) (dropped : Nat)
  | fillNum (col : Nat) (estimated : Nat) (median : Option ℚ)
  | fillStr (col : Nat) (estimated : Nat) (value : Val)
deriving DecidableEq

/-- Column `j` of the rows (`df[column]`). -/
def colCells (j : Nat) (rows : List Row) : List Cell :=
  rows.map (fun r => r.getD j none)

/-- Number of nulls in column `j` (`df[column].isnull().sum()`). -/
def missingCount (j : Nat) (rows : List Row) : Nat :=
  (colCells j rows).countP Option.isNone

/-- The code's `missing_pct = df[column].isnull().mean() * 100`.  On an
empty frame pandas yields NaN, for which every comparison used by the
code (`> 0`, `< 10`) is false; returning `0` models that faithfully. -/
def missingPct (j : Nat) (rows : List Row) : ℚ :=
  if rows.length = 0 then 0 else (missingCount j rows : ℚ) / (rows.length : ℚ) * 100

/-- Rows surviving `df.dropna(subset=[column])` for column `j`. -/
def dropNullRows (j : Nat) (rows : List Row) : List Row :=
  rows.filter (fun r => (r.getD j none).isSome)

/-- The non-null numeric values of column `j` (what `Series.median()`
aggregates over). -/
def colNums (j : Nat) (rows : List Row) : List ℚ :=
  (colCells j rows).filterMap (fun c =>
    match c with
    | some (Val.num q) => some q
    | _ => none)

/-- pandas `Series.median()`: sort the non-null values; the middle one for
odd counts, the mean of the two middle ones for even counts, NaN (`none`)
when there is nothing to aggregate. -/
def medianQ (l : List ℚ) : Option ℚ :=
  let s := l.insertionSort (· ≤ ·)
  if s.length = 0 then none
  else if s.length % 2 = 1 then some (s.getD (s.length / 2) 0)
  else some ((s.getD (s.length / 2 - 1) 0 + s.getD (s.length / 2) 0) / 2)

/-- Lexicographic order on raw character lists, mirroring Python's order
on `str` (by code point). -/
def listCharLe : List Char → List Char → Bool
  | [], _ => true
  | _ :: _, [] => false
  | a :: as, b :: bs =>
    if a < b then true else if b < a then false else listCharLe as bs

/-- The value order pandas uses when sorting the candidate modes. -/
def valLe (a b : Val) : Bool :=
  match a, b with
  | .num x, .num y => decide (x ≤ y)
  | .num _, .str _ => true
  | .str _, .num _ => false
  | .str x, .str y => listCharLe x.data y.data

/-- pandas `Series.mode()[0]`: among the non-null values take those of
maximal multiplicity and return the least of them (`mode()` sorts its
result ascending); `none` when every value is null, making `mode()`
empty. -/
def modeVal (cells : List Cell) : Option Val :=
  let vs := cells.filterMap id
  let maxC := (vs.map (fun v => vs.count v)).foldr max 0
  match vs.dedup.filter (fun v => vs.count v = maxC) with
  | [] => none
  | c :: cs => some (cs.foldl (fun a v => if valLe v a then v else a) c)

/-- `df[column].fillna(v)`: replace the nulls of column `j` by `v`.  A
`none` fill value models `fillna(NaN)`, which changes nothing. -/
def fillColWith (j : Nat) (v : Option Val) (rows : List Row) : List Row :=
  match v with
  | none => rows
  | some w => rows.map (fun r => r.set j (some ((r.getD j none).getD w)))

/-- Helper for `drop_duplicates`: keep each row's first occurrence. -/
def dropDupAux : List Row → List Row → List Row
  | _, [] => []
  | seen, r :: rs =>
    if r ∈ seen then dropDupAux seen rs else r :: dropDupAux (r :: seen) rs

/-- `df.drop_duplicates()` (pandas treats NaN cells as equal here, as does
`Option` equality). -/
def dropDupFirst (rows : List Row) : List Row := dropDupAux [] rows

/-- `df.duplicated().sum()`: rows that repeat an earlier row. -/
def dupCount (rows : List Row) : Nat := rows.length - (dropDupFirst rows).length

/-- The logged estimate `int(missing_pct * original_rows / 100)`; the
operand is nonnegative, so Python's truncation is the floor. -/
def estCount (pct : ℚ) (origRows : Nat) : Nat := (⌊pct * (origRows : ℚ) / 100⌋).toNat

/-- One iteration of the per-column loop of `clean_and_summarize`:
recompute the missing percentage on the current frame, then drop rows
(`< 10`), impute with the median (numeric) or the mode/`"Unknown"`
(non-numeric), or do nothing (`0`). -/
def processColumn (origRows : Nat) (numeric : Bool) (j : Nat) (rows : List Row) :
    List Row × List Step :=
  let pct := missingPct j rows
  if 0 < pct then
    if pct < 10 then
      let rows2 := dropNullRows j rows
      let dropped := rows.length - rows2.length
      (rows2, if 0 < dropped then [Step.dropRows j dropped] else [])
    else if numeric then
      let med := medianQ (colNums j rows)
      (fillColWith j (med.map Val.num) rows, [Step.fillNum j (estCount pct origRows) med])
    else
      let mv := (modeVal (colCells j rows)).getD (Val.str "Unknown")
      (fillColWith j (some mv) rows, [Step.fillStr j (estCount pct origRows) mv])
  else (rows, [])

/-- The column loop, threading the frame and concatenating the step log. -/
def foldCols (origRows : Nat) (dts : List Bool) : List Nat → List Row → List Row × List Step
  | [], rows => (rows, [])
  | j :: rest, rows =>
    let pr := processColumn origRows (dts.getD j false) j rows
    let next := foldCols origRows dts rest pr.1
    (next.1, pr.2 ++ next.2)

/-- The duplicate-removal stage applied to the frame. -/
def rowsAfterDedup (rows : List Row) : List Row :=
  if 0 < dupCount rows then dropDupFirst rows else rows

/-- The step the duplicate-removal stage records, when it fires. -/
def dedupSteps (rows : List Row) : List Step :=
  if 0 < dupCount rows then [Step.dedup (dupCount rows)] else []

/-- The deterministic cleaning pass of `clean_and_summarize`: remove
duplicate rows, then resolve missing values column by column in column
order.  Returns the cleaned table and the ordered step log. -/
def cleanPass (t : Table) : Table × List Step :=
  let res := foldCols t.rows.length t.dtypes (List.range t.dtypes.length) (rowsAfterDedup t.rows)
  (⟨t.dtypes, res.1⟩, dedupSteps t.rows ++ res.2)

/-- The frame state at the moment column `j` is about to be processed:
after duplicate removal and the processing of columns `0..j-1`. -/
def stateBefore (t : Table) (j : Nat) : List Row :=
  (foldCols t.rows.length t.dtypes (List.range j) (rowsAfterDedup t.rows)).1

/-- The fallback narrative `clean_and_summarize` substitutes when the
Ollama query raises `e`. -/
def codeFallback (e : String) : String :=
  "Could not get AI suggestions: " ++ e ++ "\nPerforming basic cleaning only."

/-- Advisory text: the model's answer on success, the fallback string on
failure. -/
def adviseNarrative (ai : Except String String) : String :=
  match ai with
  | .ok s => s
  | .error e => codeFallback e

/-- The advisory-plus-cleaning stage of `clean_and_summarize`: the Ollama
outcome `ai` only feeds the narrative; the cleaning pass runs on the
table either way. -/
def cleanAndSummarize (ai : Except String String) (t : Table) :
    String × Table × List Step :=
  (adviseNarrative ai, (cleanPass t).1, (cleanPass t).2)

/-- The missing ratio as the specification phrases it: nulls over current
row count, a number in `[0, 1]`. -/
def missingFrac (j : Nat) (rows : List Row) : ℚ :=
  if rows.length = 0 then 0 else (missingCount j rows : ℚ) / (rows.length : ℚ)

/-- Per-column transformation as the specification words it: ratio `0`
leaves the column alone; a ratio strictly between `0` and `1/10` drops
every row where the column is null; a ratio of at least `1/10` imputes,
with the median for numeric columns and the mode for non-numeric ones,
falling back to the literal `"Unknown"` sentinel when there is no mode. -/
def specColumnRows (numeric : Bool) (j : Nat) (rows : List Row) : List Row :=
  let r := missingFrac j rows
  if r = 0 then rows
  else if r < 1 / 10 then rows.filter (fun row => (row.getD j none).isSome)
  else if numeric then fillColWith j ((medianQ (colNums j rows)).map Val.num) rows
  else if modeVal (colCells j rows) = none then fillColWith j (some (Val.str "Unknown")) rows
  else fillColWith j (modeVal (colCells j rows)) rows

/-- The whole cleaning pass as the specification words it, at the level of
the row data. -/
def specCleanRows (t : Table) : List Row :=
  (List.range t.dtypes.length).foldl
    (fun rows j => specColumnRows (t.dtypes.getD j false) j rows)
    (rowsAfterDedup t.rows)

/-! ## Conversation context manager (`chat_handler.py`) -/

/-- The character budget `MAX_CONTEXT_LENGTH`. -/
def maxContextLength : Nat := 15000

/-- The omission marker inserted by `_prepare_context` (without its
trailing newline). -/
def omissionMarker : List Char := "...[older messages omitted]...".data

/-- Python's `text.split("\n")` on a character list: `n` newline
characters yield `n + 1` pieces, empty pieces included. -/
def splitNL : List Char → List (List Char)
  | [] => [[]]
  | c :: cs =>
    let r := splitNL cs
    if c = '\n' then [] :: r
    else
      match r with
      | [] => [[c]]
      | h :: t => (c :: h) :: t

/-- Python's `"\n".join(pieces)`. -/
def joinNL : List (List Char) → List Char
  | [] => []
  | [p] => p
  | p :: q :: ps => p ++ '\n' :: joinNL (q :: ps)

/-- Python's `l[i:]` slice for an arbitrary (possibly negative) integer
start index. -/
def pyTailSlice {α : Type} (l : List α) (i : Int) : List α :=
  if i < 0 then l.drop (l.length - min l.length (-i).toNat)
  else l.drop (min l.length i.toNat)

/-- Embedding of `ChatHandler._prepare_context` applied to the rendered
history string: if the rendering exceeds the budget, keep the first line
plus `"\n"`, compute `remaining_length` as a character count, and keep
`context_parts[-remaining_length:]` — a slice counted in lines — joined
back, behind the omission marker. -/
def prepareContext (context : List Char) : List Char :=
  if maxContextLength < context.length then
    let parts := splitNL context
    let systemPart := parts.headD [] ++ ['\n']
    let remaining : Int := (maxContextLength : Int) - (systemPart.length : Int)
    let recent := joinNL (pyTailSlice parts (-remaining))
    systemPart ++ omissionMarker ++ '\n' :: recent
  else context

/-- The constant header line of `get_formatted_chat_context`. -/
def chatHeader : List Char := "Previous conversation:".data

/-- One rendered turn: `"User: "`/`"Assistant: "`, the content, and a
newline. -/
def renderTurn (isUser : Bool) (content : List Char) : List Char :=
  (if isUser then "User: ".data else "Assistant: ".data) ++ content ++ ['\n']

/-- `get_formatted_chat_context` for a non-empty history: the header line
followed by every rendered turn. -/
def renderHistory (msgs : List (Bool × List Char)) : List Char :=
  chatHeader ++ '\n' :: (msgs.map (fun m => renderTurn m.1 m.2)).flatten

/-! ## Chat history retrieval (`db_handler.py`) -/

/-- One `chat_history` record: owning user, autoincrement sequence
number, creation timestamp (whole seconds, so ties are possible), role
and content. -/
structure Turn where
  uid : Nat
  seq : Nat
  ts : Nat
  role : String
  content : String
deriving DecidableEq

/-- The user's turns in insertion order (the table scan filtered by
`user_id`, in autoincrement order). -/
def turnsOf (uid : Nat) (db : List Turn) : List Turn :=
  db.filter (fun t => t.uid = uid)

/-- Relational semantics of `get_chat_history`: SQLite evaluates
`SELECT ... WHERE user_id = ? ORDER BY timestamp DESC LIMIT ?`, which
promises only some arrangement of the user's rows that is nonincreasing
in `timestamp` — the order of rows with equal timestamps is unspecified —
then the code reverses the fetched page.  `out` is a possible return
value of the call. -/
def getChatHistoryResult (db : List Turn) (uid limit : Nat) (out : List Turn) : Prop :=
  ∃ sorted, List.Perm (turnsOf uid db) sorted ∧
    sorted.Pairwise (fun a b => b.ts ≤ a.ts) ∧ out = (sorted.take limit).reverse

/-! ## Concrete instances used by counterexamples and witnesses -/

/-- Two-row table: a non-numeric column with a 50% missing ratio whose
mode imputation makes the two rows identical. -/
def tabDupAfterFill : Table :=
  ⟨[false, false],
   [[some (Val.str "x"), none],
    [some (Val.str "x"), some (Val.str "a")]]⟩

/-- Ten-row table: six identical rows (five duplicates), then three rows
with a null in the second column, then one more row.  After duplicate
removal the second column is 3/5 = 60% missing while its pre-processing
ratio was 3/10 = 30%. -/
def tabEstimate : Table :=
  ⟨[true, true],
   [[some (Val.num 0), some (Val.num 5)],
    [some (Val.num 0), some (Val.num 5)],
    [some (Val.num 0), some (Val.num 5)],
    [some (Val.num 0), some (Val.num 5)],
    [some (Val.num 0), some (Val.num 5)],
    [some (Val.num 0), some (Val.num 5)],
    [some (Val.num 1), none],
    [some (Val.num 2), none],
    [some (Val.num 3), none],
    [some (Val.num 4), some (Val.num 7)]]⟩

/-- Eleven-row table: the first column is null only in row 0 (1/11 ≈ 9.1%,
so that row is dropped), and the second, numeric column has its only
non-null value in row 0 — after the drop it is entirely null, its median
is NaN, and `fillna` leaves every null in place. -/
def tabNullsSurvive : Table :=
  ⟨[true, true],
   [[none, some (Val.num 1)],
    [some (Val.num 1), none],
    [some (Val.num 2), none],
    [some (Val.num 3), none],
    [some (Val.num 4), none],
    [some (Val.num 5), none],
    [some (Val.num 6), none],
    [some (Val.num 7), none],
    [some (Val.num 8), none],
    [some (Val.num 9), none],
    [some (Val.num 10), none]]⟩

/-- The rows of `tabNullsSurvive` that survive dropping the first
column's null row: the second column is entirely null here. -/
def rowsDropped0 : List Row :=
  [[some (Val.num 1), none],
   [some (Val.num 2), none],
   [some (Val.num 3), none],
   [some (Val.num 4), none],
   [some (Val.num 5), none],
   [some (Val.num 6), none],
   [some (Val.num 7), none],
   [some (Val.num 8), none],
   [some (Val.num 9), none],
   [some (Val.num 10), none]]

/-- Two-row single numeric column with one null (50% missing): the null
is imputed with the median, leaving the column null-free. -/
def tabMedianFill : Table :=
  ⟨[true], [[some (Val.num 1)], [none]]⟩

/-- A table that is already clean: no duplicate rows, no nulls. -/
def tabClean : Table :=
  ⟨[false], [[some (Val.str "a")], [some (Val.str "b")]]⟩

/-- A history of 1666 turns of content `"ab"`, whose rendering is 15017
characters — just over the 15000-character budget. -/
def longHistory : List (Bool × List Char) :=
  List.replicate 1666 (true, "ab".data)

/-- Two same-timestamp turns of one user. -/
def turnA : Turn := ⟨7, 1, 5, "user", "a"⟩

/-- Second turn sharing `turnA`'s timestamp. -/
def turnB : Turn := ⟨7, 2, 5, "assistant", "b"⟩

/-- Three turns of one user with strictly increasing timestamps. -/
def turnC : Turn := ⟨9, 1, 1, "user", "a"⟩

/-- Second strictly-later turn. -/
def turnD : Turn := ⟨9, 2, 2, "assistant", "b"⟩

/-- Third strictly-later turn. -/
def turnE : Turn := ⟨9, 3, 3, "user", "c"⟩

/-! ## Theorems: inference client -/

theorem queryLoop_log_extends (env : OEnv) (p : List Char) :
    ∀ (fuel : Nat) (st : QState) (le : Option String),
      ∃ l, (queryLoop env p fuel st le).2.1.callLog = st.callLog ++ l ∧
        ∀ c ∈ l, c.sent = p := by
  intro fuel
  induction fuel with
  | zero =>
    intro st le
    exact ⟨[], by simp [queryLoop], by simp⟩
  | succ n ih =>
    intro st le
    by_cases hu : st.useApi
    · cases hapi : env.apiResult st.apiCalls with
      | ok r =>
        refine ⟨[⟨true, p, .ok r⟩], ?_, by simp⟩
        simp [queryLoop, hu, callApi, hapi]
      | error ae =>
        cases hcli : env.cliResult st.cliCalls with
        | ok r =>
          refine ⟨[⟨true, p, .error ae⟩, ⟨false, p, .ok r⟩], ?_, by simp⟩
          simp [queryLoop, hu, callApi, callCli, hapi, hcli]
        | error ce =>
          obtain ⟨l, hl, hsent⟩ :=
            ih
              { st with
                  useApi := false,
                  apiCalls := st.apiCalls + 1,
                  cliCalls := st.cliCalls + 1,
                  callLog := st.callLog ++ [⟨true, p, .error ae⟩] ++ [⟨false, p, .error ce⟩] }
              (some ce)
          refine ⟨⟨true, p, .error ae⟩ :: ⟨false, p, .error ce⟩ :: l, ?_, ?_⟩
          · simp only [queryLoop, hu, if_true, callApi, callCli, hapi, hcli] at hl ⊢
            simp at hl ⊢
            simp [hl]
          · intro c hc
            rcases List.mem_cons.mp hc with h | hc2
            · simp [h]
            rcases List.mem_cons.mp hc2 with h | h
            · simp [h]
            · exact hsent _ h
    · cases hcli : env.cliResult st.cliCalls with
      | ok r =>
        refine ⟨[⟨false, p, .ok r⟩], ?_, by simp⟩
        simp [queryLoop, hu, callCli, hcli]
      | error ce =>
        obtain ⟨l, hl, hsent⟩ :=
          ih
            { st with
                cliCalls := st.cliCalls + 1,
                callLog := st.callLog ++ [⟨false, p, .error ce⟩] }
            (some ce)
        refine ⟨⟨false, p, .error ce⟩ :: l, ?_, ?_⟩
        · simp only [queryLoop, hu, if_false, callCli, hcli] at hl ⊢
          simp at hl ⊢
          simp [hl]
        · intro c hc
          rcases List.mem_cons.mp hc with h | h
          · simp [h]
          · exact hsent _ h

theorem queryLoop_attempts_le (env : OEnv) (p : List Char) :
    ∀ (fuel : Nat) (st : QState) (le : Option String),
      (queryLoop env p fuel st le).2.2 ≤ fuel := by
  intro fuel
  induction fuel with
  | zero => intro st le; simp [queryLoop]
  | succ n ih =>
    intro st le
    by_cases hu : st.useApi
    · cases hapi : env.apiResult st.apiCalls with
      | ok r => simp [queryLoop, hu, callApi, hapi]
      | error ae =>
        cases hcli : env.cliResult st.cliCalls with
        | ok r => simp [queryLoop, hu, callApi, callCli, hapi, hcli]
        | error ce =>
          simp only [queryLoop, hu, if_true, callApi, callCli, hapi, hcli]
          simpa using ih _ (some ce)
    · cases hcli : env.cliResult st.cliCalls with
      | ok r => simp [queryLoop, hu, callCli, hcli]
      | error ce =>
        simp only [queryLoop, hu, if_false, callCli, hcli]
        simpa using ih _ (some ce)

theorem lastOutcome_concat (l : List TCall) (c : TCall) :
    lastOutcome (l ++ [c]) = some c.outcome := by
  simp [lastOutcome]

theorem queryLoop_last_error (env : OEnv) (p : List Char) :
    ∀ (fuel : Nat) (st : QState) (le : Option String),
      (le = none → 1 ≤ fuel) →
      (∀ e0, le = some e0 → lastOutcome st.callLog = some (.error e0)) →
      ∀ e, (queryLoop env p fuel st le).1 = .error e →
        lastOutcome (queryLoop env p fuel st le).2.1.callLog = some (.error e) := by
  intro fuel
  induction fuel with
  | zero =>
    intro st le h1 h2 e he
    cases le with
    | none => exact absurd (h1 rfl) (by norm_num)
    | some e0 =>
      simp only [queryLoop, Option.getD_some, Except.error.injEq] at he
      subst he
      simpa [queryLoop] using h2 e0 rfl
  | succ n ih =>
    intro st le h1 h2 e he
    by_cases hu : st.useApi
    · cases hapi : env.apiResult st.apiCalls with
      | ok r => simp [queryLoop, hu, callApi, hapi] at he
      | error ae =>
        cases hcli : env.cliResult st.cliCalls with
        | ok r => simp [queryLoop, hu, callApi, callCli, hapi, hcli] at he
        | error ce =>
          simp only [queryLoop, hu, if_true, callApi, callCli, hapi, hcli] at he ⊢
          refine ih _ (some ce) (by simp) ?_ e he
          intro e0 h0
          cases h0
          exact lastOutcome_concat _ _
    · cases hcli : env.cliResult st.cliCalls with
      | ok r => simp [queryLoop, hu, callCli, hcli] at he
      | error ce =>
        simp only [queryLoop, hu, if_false, callCli, hcli] at he ⊢
        refine ih _ (some ce) (by simp) ?_ e he
        intro e0 h0
        cases h0
        exact lastOutcome_concat _ _

theorem queryLoop_first_cli (env : OEnv) (p : List Char) (fuel : Nat) (st : QState)
    (le : Option String) (h : st.useApi = false) (hlog : st.callLog = []) :
    ((queryLoop env p (fuel + 1) st le).2.1.callLog.head?).map TCall.isApi = some false := by
  obtain ⟨u, a, cl, lg⟩ := st
  simp only at h hlog
  subst h
  subst hlog
  cases hcli : env.cliResult cl with
  | ok r => simp [queryLoop, callCli, hcli]
  | error ce =>
    simp only [queryLoop, Bool.false_eq_true, if_false, callCli, hcli, List.nil_append]
    obtain ⟨l, hl, _⟩ :=
      queryLoop_log_extends env p fuel ⟨false, a, cl + 1, [⟨false, p, .error ce⟩]⟩ (some ce)
    simp only [List.nil_append] at hl
    rw [hl]
    simp

/-- C6: every prompt forwarded to a transport on any attempt is the
once-truncated prompt, whose length never exceeds 4000 characters
(3997 characters plus the three-character marker), and a prompt of at
most 4000 characters is forwarded unchanged. -/
theorem claim_c6_prompt_truncation :
    ∀ (env : OEnv) (u : Bool) (prompt : List Char) (r : Nat),
      (∀ c ∈ (queryOllama env u prompt r).2.1.callLog, c.sent = truncatePrompt prompt) ∧
      (truncatePrompt prompt).length ≤ 4000 ∧
      (prompt.length ≤ 4000 → truncatePrompt prompt = prompt) := by
  intro env u prompt r
  refine ⟨?_, ?_, ?_⟩
  · intro c hc
    cases hp : env.probe with
    | down => simp [queryOllama, runProbe, hp] at hc
    | apiUp =>
      simp only [queryOllama, runProbe, hp, if_true] at hc
      obtain ⟨l, hl, hs⟩ :=
        queryLoop_log_extends env (truncatePrompt prompt) (r + 1) ⟨true, 0, 0, []⟩ none
      rw [hl] at hc
      exact hs c (by simpa using hc)
    | cliUp =>
      simp only [queryOllama, runProbe, hp, if_true] at hc
      obtain ⟨l, hl, hs⟩ :=
        queryLoop_log_extends env (truncatePrompt prompt) (r + 1) ⟨false, 0, 0, []⟩ none
      rw [hl] at hc
      exact hs c (by simpa using hc)
  · by_cases h : prompt.length > 4000
    · simp only [truncatePrompt, h, if_true, List.length_append, List.length_take]
      simp [truncMarker]
    · simp only [truncatePrompt, h, if_false]
      omega
  · intro h
    have h4 : ¬ prompt.length > 4000 := by omega
    simp [truncatePrompt, h4]

theorem claim_c6_prompt_truncation_witness :
    truncatePrompt "hello".data = "hello".data :=
  (claim_c6_prompt_truncation ⟨Probe.apiUp, fun _ => Except.ok "r", fun _ => Except.ok "r"⟩
      true "hello".data 2).2.2 (by decide)

/-- C7: the query makes at most `max_retries + 1` attempts, and whenever
the availability probe succeeded but the call still returns an error,
that error is exactly the outcome of the last transport call — the last
transport error re-raised, not a generic wrapper. -/
theorem claim_c7_retries_and_reraise :
    ∀ (env : OEnv) (u : Bool) (p : List Char) (r : Nat),
      (queryOllama env u p r).2.2 ≤ r + 1 ∧
      (env.probe ≠ Probe.down →
        ∀ e, (queryOllama env u p r).1 = .error e →
          lastOutcome (queryOllama env u p r).2.1.callLog = some (.error e)) := by
  intro env u p r
  constructor
  · cases hp : env.probe with
    | down => simp [queryOllama, runProbe, hp]
    | apiUp =>
      simp only [queryOllama, runProbe, hp, if_true]
      exact queryLoop_attempts_le env (truncatePrompt p) (r + 1) ⟨true, 0, 0, []⟩ none
    | cliUp =>
      simp only [queryOllama, runProbe, hp, if_true]
      exact queryLoop_attempts_le env (truncatePrompt p) (r + 1) ⟨false, 0, 0, []⟩ none
  · intro hnd e he
    cases hp : env.probe with
    | down => exact absurd hp hnd
    | apiUp =>
      simp only [queryOllama, runProbe, hp, if_true] at he ⊢
      exact queryLoop_last_error env (truncatePrompt p) (r + 1) ⟨true, 0, 0, []⟩ none
        (fun _ => by omega) (fun e0 h0 => Option.noConfusion h0) e he
    | cliUp =>
      simp only [queryOllama, runProbe, hp, if_true] at he ⊢
      exact queryLoop_last_error env (truncatePrompt p) (r + 1) ⟨false, 0, 0, []⟩ none
        (fun _ => by omega) (fun e0 h0 => Option.noConfusion h0) e he

theorem claim_c7_retries_and_reraise_witness :
    lastOutcome (queryOllama ⟨Probe.apiUp, fun _ => Except.error "api down",
        fun _ => Except.error "cli down"⟩ true "q".data 1).2.1.callLog =
      some (Except.error "cli down") :=
  (claim_c7_retries_and_reraise ⟨Probe.apiUp, fun _ => Except.error "api down",
      fun _ => Except.error "cli down"⟩ true "q".data 1).2 (by decide) "cli down" rfl

/-- C5: when the probe prefers the API, the first API call fails and the
CLI call succeeds, the query returns the CLI result within the very first
attempt, the process-wide flag ends up pointing at the CLI, and a
subsequent call (whose probe does not re-prefer the API) makes its first
transport call on the CLI. -/
theorem claim_c5_sticky_fallback :
    ∀ (env env2 : OEnv) (u : Bool) (p p2 : List Char) (r r2 : Nat) (ea s : String),
      env.probe = Probe.apiUp →
      env.apiResult 0 = Except.error ea →
      env.cliResult 0 = Except.ok s →
      env2.probe = Probe.cliUp →
      (queryOllama env u p r).1 = Except.ok s ∧
      (queryOllama env u p r).2.2 = 1 ∧
      (queryOllama env u p r).2.1.useApi = false ∧
      ((queryOllama env2 (queryOllama env u p r).2.1.useApi p2 r2).2.1.callLog.head?).map
          TCall.isApi = some false := by
  intro env env2 u p p2 r r2 ea s hp hapi hcli hp2
  have hmain : queryOllama env u p r =
      (Except.ok s,
        ⟨false, 1, 1, [⟨true, truncatePrompt p, Except.error ea⟩,
          ⟨false, truncatePrompt p, Except.ok s⟩]⟩, 1) := by
    simp [queryOllama, runProbe, hp, queryLoop, callApi, callCli, hapi, hcli]
  refine ⟨by rw [hmain], by rw [hmain], by rw [hmain], ?_⟩
  rw [hmain]
  simp only [queryOllama, runProbe, hp2, if_true]
  exact queryLoop_first_cli env2 (truncatePrompt p2) r2 ⟨false, 0, 0, []⟩ none rfl rfl

theorem claim_c5_sticky_fallback_witness :
    (queryOllama ⟨Probe.apiUp, fun _ => Except.error "boom", fun _ => Except.ok "hi"⟩
        true "q".data 2).1 = Except.ok "hi" ∧
    (queryOllama ⟨Probe.apiUp, fun _ => Except.error "boom", fun _ => Except.ok "hi"⟩
        true "q".data 2).2.2 = 1 ∧
    (queryOllama ⟨Probe.apiUp, fun _ => Except.error "boom", fun _ => Except.ok "hi"⟩
        true "q".data 2).2.1.useApi = false ∧
    ((queryOllama ⟨Probe.cliUp, fun _ => Except.ok "hi", fun _ => Except.ok "hi"⟩
        (queryOllama ⟨Probe.apiUp, fun _ => Except.error "boom", fun _ => Except.ok "hi"⟩
          true "q".data 2).2.1.useApi "w".data 3).2.1.callLog.head?).map TCall.isApi =
      some false :=
  claim_c5_sticky_fallback
    ⟨Probe.apiUp, fun _ => Except.error "boom", fun _ => Except.ok "hi"⟩
    ⟨Probe.cliUp, fun _ => Except.ok "hi", fun _ => Except.ok "hi"⟩
    true "q".data "w".data 2 3 "boom" "hi" rfl rfl rfl rfl

/-! ## Theorems: conversation context manager -/

theorem splitNL_no_newline (p : List Char) (h : '\n' ∉ p) : splitNL p = [p] := by
  induction p with
  | nil => simp [splitNL]
  | cons c cs ih =>
    have hc : ¬ c = '\n' := fun hcc => h (by simp [hcc])
    have hcs : '\n' ∉ cs := fun hm => h (by simp [hm])
    simp [splitNL, hc, ih hcs]

theorem splitNL_append_newline (p rest : List Char) (h : '\n' ∉ p) :
    splitNL (p ++ '\n' :: rest) = p :: splitNL rest := by
  induction p with
  | nil => simp [splitNL]
  | cons c cs ih =>
    have hc : ¬ c = '\n' := fun hcc => h (by simp [hcc])
    have hcs : '\n' ∉ cs := fun hm => h (by simp [hm])
    rw [List.cons_append, splitNL, ih hcs]
    simp [if_neg hc]

theorem joinNL_cons (p : List Char) (ps : List (List Char)) (h : ps ≠ []) :
    joinNL (p :: ps) = p ++ '\n' :: joinNL ps := by
  cases ps with
  | nil => exact absurd rfl h
  | cons q qs => rfl

theorem splitNL_joinNL (ps : List (List Char)) (hne : ps ≠ [])
    (hfree : ∀ p ∈ ps, '\n' ∉ p) : splitNL (joinNL ps) = ps := by
  induction ps with
  | nil => exact absurd rfl hne
  | cons p qs ih =>
    cases qs with
    | nil => exact splitNL_no_newline p (hfree p (by simp))
    | cons q rs =>
      rw [joinNL_cons p (q :: rs) (by simp)]
      rw [splitNL_append_newline p _ (hfree p (by simp))]
      rw [ih (by simp) (fun x hx => hfree x (List.mem_cons_of_mem p hx))]

theorem joinNL_length (ps : List (List Char)) (hne : ps ≠ []) :
    (joinNL ps).length = (ps.map List.length).sum + (ps.length - 1) := by
  induction ps with
  | nil => exact absurd rfl hne
  | cons p qs ih =>
    cases qs with
    | nil => simp [joinNL]
    | cons q rs =>
      rw [joinNL_cons p (q :: rs) (by simp)]
      simp only [List.length_append, List.length_cons, ih (by simp)]
      simp
      omega

theorem flatten_replicate_line (line : List Char) (n : Nat) :
    (List.replicate n (line ++ ['\n'])).flatten = joinNL (List.replicate n line ++ [[]]) := by
  induction n with
  | zero => simp [joinNL]
  | succ m ih =>
    rw [List.replicate_succ, List.flatten_cons, ih, List.replicate_succ]
    rw [List.cons_append, joinNL_cons line (List.replicate m line ++ [[]]) (by simp)]
    simp

theorem pyTailSlice_all {α : Type} (l : List α) (i : Int) (h : i < 0)
    (h2 : (l.length : Int) ≤ -i) : pyTailSlice l i = l := by
  rw [pyTailSlice, if_pos h]
  have hmin : min l.length (-i).toNat = l.length := by
    apply min_eq_left
    omega
  rw [hmin]
  simp

theorem prepareContext_keeps_all (parts : List (List Char)) (hne : parts ≠ [])
    (hfree : ∀ p ∈ parts, '\n' ∉ p)
    (hover : maxContextLength < (joinNL parts).length)
    (hcount : (parts.length : Int) ≤
      (maxContextLength : Int) - ((parts.headD []).length + 1)) :
    prepareContext (joinNL parts)
      = (parts.headD [] ++ ['\n']) ++ omissionMarker ++ '\n' :: joinNL parts := by
  have hlen1 : 1 ≤ parts.length := by
    cases parts with
    | nil => exact absurd rfl hne
    | cons a l => simp
  rw [prepareContext, if_pos hover]
  simp only [splitNL_joinNL parts hne hfree, List.length_append, List.length_cons,
    List.length_nil]
  rw [pyTailSlice_all]
  · omega
  · push_cast
    omega

/-- C2 (evaluation of the failing input): for the 1666-turn history
`longHistory`, whose rendering is 15017 characters and thus over the
15000-character budget, `_prepare_context` keeps every line — its
`remaining_length`, a character count, is used to slice lines — and the
returned context is 15071 characters long: it contains the whole
rendering again (header included) and exceeds the budget by far more than
the length of one trailing 8-character line, contradicting the claimed
bound. -/
theorem claim_c2_budget_overrun :
    (prepareContext (renderHistory longHistory)).length = 15071 ∧
    maxContextLength + ("User: ab".data).length <
      (prepareContext (renderHistory longHistory)).length := by
  have hturn : renderTurn ((true : Bool), "ab".data).1 ((true : Bool), "ab".data).2
      = "User: ab".data ++ ['\n'] := by decide
  have hparts : renderHistory longHistory
      = joinNL (chatHeader :: (List.replicate 1666 "User: ab".data ++ [[]])) := by
    rw [joinNL_cons chatHeader _ (List.length_pos.mp
      (by rw [List.length_append, List.length_replicate]; norm_num))]
    rw [renderHistory, longHistory, List.map_replicate, hturn, flatten_replicate_line]
  have hfree : ∀ p ∈ chatHeader :: (List.replicate 1666 "User: ab".data ++ [[]]),
      '\n' ∉ p := by
    intro p hp
    rcases List.mem_cons.mp hp with h | hp2
    · subst h; decide
    rcases List.mem_append.mp hp2 with h | h
    · rw [List.eq_of_mem_replicate h]; decide
    · simp at h; subst h; simp
  have hjlen : (joinNL (chatHeader :: (List.replicate 1666 "User: ab".data ++ [[]]))).length
      = 15017 := by
    rw [joinNL_length _ (List.cons_ne_nil _ _)]
    have h22 : chatHeader.length = 22 := by decide
    have h8 : ("User: ab".data).length = 8 := by decide
    rw [List.map_cons, List.map_append, List.map_replicate, h22, h8]
    rw [List.sum_cons, List.sum_append, List.sum_replicate]
    rw [List.length_cons, List.length_append, List.length_replicate]
    norm_num
  have hover : maxContextLength
      < (joinNL (chatHeader :: (List.replicate 1666 "User: ab".data ++ [[]]))).length := by
    rw [hjlen]
    norm_num [maxContextLength]
  have hcount : ((chatHeader :: (List.replicate 1666 "User: ab".data ++ [[]])).length : Int)
      ≤ (maxContextLength : Int)
        - (((chatHeader :: (List.replicate 1666 "User: ab".data ++ [[]])).headD []).length
            + 1) := by
    have h22 : ((chatHeader :: (List.replicate 1666 "User: ab".data
        ++ [[]])).headD []).length = 22 := by decide
    rw [h22, List.length_cons, List.length_append, List.length_replicate]
    norm_num [maxContextLength]
  have hmain := prepareContext_keeps_all _ (List.cons_ne_nil _ _) hfree hover hcount
  have hfinal : (prepareContext (renderHistory longHistory)).length = 15071 := by
    rw [hparts, hmain]
    have h22 : ((chatHeader :: (List.replicate 1666 "User: ab".data ++ [[]])).headD
        []).length = 22 := by decide
    have h30 : omissionMarker.length = 30 := by decide
    simp only [List.length_append, List.length_cons, List.length_nil, hjlen, h22, h30]
  refine ⟨hfinal, ?_⟩
  rw [hfinal]
  have h8 : ("User: ab".data).length = 8 := by decide
  rw [h8]
  norm_num [maxContextLength]

/-! ## Theorems: chat history retrieval -/

/-- C9 (counterexample): with two turns of one user sharing a timestamp,
`ORDER BY timestamp DESC` may arrange them either way — here a valid
query result, reversed by the code, is `[turnB, turnA]`, which is not a
suffix of the insertion order `[turnA, turnB]`.  The claim that the
returned list always equals a suffix of the append order is false. -/
theorem claim_c9_counterexample :
    getChatHistoryResult [turnA, turnB] 7 2 [turnB, turnA] ∧
    ¬ [turnB, turnA] <:+ turnsOf 7 [turnA, turnB] := by
  constructor
  · exact ⟨[turnA, turnB], by decide, by decide, by decide⟩
  · decide

/-- C9 (amended): when the user's stored turns have strictly increasing
timestamps (no two turns share a timestamp and insertion order is
chronological), every possible result of `get_chat_history` is exactly
the suffix of the insertion order of length `min limit n`. -/
theorem claim_c9_suffix_of_distinct_timestamps (db : List Turn) (uid limit : Nat)
    (out : List Turn)
    (hstrict : (turnsOf uid db).Pairwise (fun a b => a.ts < b.ts))
    (hres : getChatHistoryResult db uid limit out) :
    out <:+ turnsOf uid db ∧ out.length = min limit (turnsOf uid db).length := by
  obtain ⟨sorted, hperm, hsorted, hout⟩ := hres
  have hne_l : (turnsOf uid db).Pairwise (fun a b => a.ts ≠ b.ts) :=
    hstrict.imp (fun h => Nat.ne_of_lt h)
  have hne_sorted : sorted.Pairwise (fun a b => a.ts ≠ b.ts) :=
    (List.Perm.pairwise_iff (fun h => Ne.symm h) hperm).mp hne_l
  have hgt : sorted.Pairwise (fun a b => b.ts < a.ts) :=
    (hsorted.and hne_sorted).imp (fun h => lt_of_le_of_ne h.1 (Ne.symm h.2))
  have hrev : (turnsOf uid db).reverse.Pairwise (fun a b => b.ts < a.ts) := by
    rw [List.pairwise_reverse]
    exact hstrict
  haveI : IsAntisymm Turn (fun a b => b.ts < a.ts) :=
    ⟨fun a b h1 h2 => absurd (h1.trans h2) (lt_irrefl _)⟩
  have hperm2 : sorted.Perm (turnsOf uid db).reverse :=
    hperm.symm.trans (List.reverse_perm (turnsOf uid db)).symm
  have heq : sorted = (turnsOf uid db).reverse :=
    List.eq_of_perm_of_sorted hperm2 hgt hrev
  have hdrop : out = (turnsOf uid db).drop ((turnsOf uid db).length - limit) := by
    rw [hout, heq, List.reverse_take]
    simp
  refine ⟨?_, ?_⟩
  · rw [hdrop]
    exact List.drop_suffix _ _
  · rw [hdrop, List.length_drop]
    omega

theorem claim_c9_suffix_of_distinct_timestamps_witness :
    [turnD, turnE] <:+ turnsOf 9 [turnC, turnD, turnE] ∧
    [turnD, turnE].length = min 2 (turnsOf 9 [turnC, turnD, turnE]).length :=
  claim_c9_suffix_of_distinct_timestamps [turnC, turnD, turnE] 9 2 [turnD, turnE]
    (by decide) ⟨[turnE, turnD, turnC], by decide, by decide, by decide⟩

/-! ## Theorems: cleaning engine, basic facts -/

theorem missingCount_le_length (j : Nat) (rows : List Row) :
    missingCount j rows ≤ rows.length := by
  unfold missingCount colCells
  calc (rows.map (fun r => r.getD j none)).countP Option.isNone
      ≤ (rows.map (fun r => r.getD j none)).length := List.countP_le_length _
    _ = rows.length := List.length_map _ _

theorem missingPct_pos (j : Nat) (rows : List Row) (h0 : 0 < missingCount j rows) :
    0 < missingPct j rows := by
  have hlen : rows.length ≠ 0 := by
    have := missingCount_le_length j rows
    omega
  unfold missingPct
  rw [if_neg hlen]
  have h1 : (0 : ℚ) < (missingCount j rows : ℚ) := by exact_mod_cast h0
  have h2 : (0 : ℚ) < (rows.length : ℚ) := by
    exact_mod_cast Nat.pos_of_ne_zero hlen
  positivity

theorem missingCount_eq_zero_of_pct_not_pos (j : Nat) (rows : List Row)
    (h : ¬ 0 < missingPct j rows) : missingCount j rows = 0 := by
  by_contra hc
  exact h (missingPct_pos j rows (Nat.pos_of_ne_zero hc))

theorem missingPct_lt_ten_iff (j : Nat) (rows : List Row) (hlen : rows.length ≠ 0) :
    missingPct j rows < 10 ↔ missingCount j rows * 10 < rows.length := by
  unfold missingPct
  rw [if_neg hlen]
  have h2 : (0 : ℚ) < (rows.length : ℚ) := by
    exact_mod_cast Nat.pos_of_ne_zero hlen
  rw [div_mul_eq_mul_div, div_lt_iff h2]
  constructor
  · intro h
    by_contra hc
    push_neg at hc
    have hq : (rows.length : ℚ) ≤ (missingCount j rows : ℚ) * 10 := by exact_mod_cast hc
    linarith
  · intro h
    have hq : (missingCount j rows : ℚ) * 10 < (rows.length : ℚ) := by exact_mod_cast h
    linarith

theorem processColumn_of_no_missing (o : Nat) (b : Bool) (j : Nat) (rows : List Row)
    (h : missingCount j rows = 0) : processColumn o b j rows = (rows, []) := by
  unfold processColumn
  have hpct : missingPct j rows = 0 := by
    unfold missingPct
    split
    · rfl
    · rw [h]
      norm_num
  rw [hpct]
  norm_num

theorem processColumn_drop_eq (o : Nat) (b : Bool) (j : Nat) (rows : List Row)
    (h0 : 0 < missingCount j rows) (h10 : missingCount j rows * 10 < rows.length) :
    processColumn o b j rows
      = (dropNullRows j rows,
         if 0 < rows.length - (dropNullRows j rows).length
         then [Step.dropRows j (rows.length - (dropNullRows j rows).length)] else []) := by
  have hlen : rows.length ≠ 0 := by
    have := missingCount_le_length j rows
    omega
  unfold processColumn
  rw [if_pos (missingPct_pos j rows h0),
    if_pos ((missingPct_lt_ten_iff j rows hlen).mpr h10)]

theorem processColumn_impute_num (o : Nat) (j : Nat) (rows : List Row)
    (h0 : 0 < missingCount j rows) (h10 : rows.length ≤ missingCount j rows * 10) :
    processColumn o true j rows
      = (fillColWith j ((medianQ (colNums j rows)).map Val.num) rows,
         [Step.fillNum j (estCount (missingPct j rows) o) (medianQ (colNums j rows))]) := by
  have hlen : rows.length ≠ 0 := by
    have := missingCount_le_length j rows
    omega
  unfold processColumn
  rw [if_pos (missingPct_pos j rows h0),
    if_neg ((not_congr (missingPct_lt_ten_iff j rows hlen)).mpr (by omega))]
  rw [if_pos rfl]

theorem processColumn_impute_str (o : Nat) (j : Nat) (rows : List Row)
    (h0 : 0 < missingCount j rows) (h10 : rows.length ≤ missingCount j rows * 10) :
    processColumn o false j rows
      = (fillColWith j (some ((modeVal (colCells j rows)).getD (Val.str "Unknown"))) rows,
         [Step.fillStr j (estCount (missingPct j rows) o)
            ((modeVal (colCells j rows)).getD (Val.str "Unknown"))]) := by
  have hlen : rows.length ≠ 0 := by
    have := missingCount_le_length j rows
    omega
  unfold processColumn
  rw [if_pos (missingPct_pos j rows h0),
    if_neg ((not_congr (missingPct_lt_ten_iff j rows hlen)).mpr (by omega))]
  rw [if_neg (by simp)]

theorem missingPct_eq_hundred_frac (j : Nat) (rows : List Row) :
    missingPct j rows = 100 * missingFrac j rows := by
  unfold missingPct missingFrac
  split
  · norm_num
  · ring

theorem missingFrac_nonneg (j : Nat) (rows : List Row) : 0 ≤ missingFrac j rows := by
  unfold missingFrac
  split
  · norm_num
  · positivity

theorem processColumn_rows_eq_spec (o : Nat) (b : Bool) (j : Nat) (rows : List Row) :
    (processColumn o b j rows).1 = specColumnRows b j rows := by
  unfold processColumn specColumnRows
  rw [missingPct_eq_hundred_frac]
  have hnn := missingFrac_nonneg j rows
  by_cases h1 : missingFrac j rows = 0
  · rw [if_neg (by rw [h1]; norm_num), if_pos h1]
  · have hpos : 0 < missingFrac j rows := lt_of_le_of_ne hnn (Ne.symm h1)
    rw [if_pos (by positivity), if_neg h1]
    by_cases h2 : missingFrac j rows < 1 / 10
    · rw [if_pos (by linarith), if_pos h2]
      rfl
    · rw [if_neg (fun hc => h2 (by linarith)), if_neg h2]
      cases b with
      | true => rw [if_pos rfl, if_pos rfl]
      | false =>
        rw [if_neg (by simp), if_neg (by simp)]
        cases hmv : modeVal (colCells j rows) with
        | none =>
          rw [if_pos rfl]
          simp [hmv]
        | some m =>
          rw [if_neg (by simp)]
          simp

theorem foldCols_rows_eq_spec_foldl (o : Nat) (dts : List Bool) :
    ∀ (cols : List Nat) (rows : List Row),
      (foldCols o dts cols rows).1
        = cols.foldl (fun rows j => specColumnRows (dts.getD j false) j rows) rows := by
  intro cols
  induction cols with
  | nil => intro rows; rfl
  | cons j rest ih =>
    intro rows
    show (foldCols o dts rest (processColumn o (dts.getD j false) j rows).1).1 = _
    rw [ih, processColumn_rows_eq_spec, List.foldl_cons]

/-- C1: the row data produced by the cleaning pass coincides, table by
table, with the specification's reading of the policy: columns are
processed in column order, the missing ratio is recomputed on the table
state at the time each column is processed, a zero ratio leaves the
column unchanged, a ratio strictly between 0 and 10% drops every row
where the column is null, and a ratio of at least 10% imputes — median
for numeric columns, mode for non-numeric ones, with the `"Unknown"`
sentinel when a fully-null non-numeric column has no mode. -/
theorem claim_c1_column_policy (t : Table) :
    (cleanPass t).1.rows = specCleanRows t := by
  unfold cleanPass specCleanRows
  exact foldCols_rows_eq_spec_foldl _ _ _ _

/-- C8 (amended): the inference outcome never influences the
deterministic cleaning — table and step log are those of the pure
cleaning pass whatever the advisory outcome was — and on an inference
error the narrative substituted is the code's fallback string
`"Could not get AI suggestions: <error>\nPerforming basic cleaning
only."`. -/
theorem claim_c8_fallback_and_cleaning (ai : Except String String) (t : Table) :
    (cleanAndSummarize ai t).2.1 = (cleanPass t).1 ∧
    (cleanAndSummarize ai t).2.2 = (cleanPass t).2 ∧
    ∀ e, ai = .error e → (cleanAndSummarize ai t).1 = codeFallback e := by
  refine ⟨rfl, rfl, ?_⟩
  intro e he
  subst he
  rfl

theorem claim_c8_fallback_and_cleaning_witness :
    (cleanAndSummarize (Except.error "boom") tabClean).1 = codeFallback "boom" :=
  (claim_c8_fallback_and_cleaning (Except.error "boom") tabClean).2.2 "boom" rfl

/-- C8 (counterexample to the stated literal): when the inference client
fails, the narrative the engine substitutes is not the literal
`"AI analysis not available — performing basic cleaning only"` the claim
asserts. -/
theorem claim_c8_counterexample :
    (cleanAndSummarize (Except.error "boom") tabClean).1
      ≠ "AI analysis not available — performing basic cleaning only" := by
  decide

theorem foldCols_of_no_missing (o : Nat) (dts : List Bool) :
    ∀ (cols : List Nat) (rows : List Row),
      (∀ j ∈ cols, missingCount j rows = 0) →
      foldCols o dts cols rows = (rows, []) := by
  intro cols
  induction cols with
  | nil => intro rows _; rfl
  | cons j rest ih =>
    intro rows h
    have hj := h j (List.mem_cons_self j rest)
    have hpc := processColumn_of_no_missing o (dts.getD j false) j rows hj
    show (let pr := processColumn o (dts.getD j false) j rows
          let next := foldCols o dts rest pr.1
          (next.1, pr.2 ++ next.2)) = (rows, [])
    rw [hpc]
    simp only []
    rw [ih rows (fun i hi => h i (List.mem_cons_of_mem j hi))]
    rfl

/-- C3 (amended): a table with no duplicate rows and no missing value in
any of its columns is a fixed point of the cleaning pass, which returns
it unchanged with an empty step log.  (The unconditional claim is false:
imputation can create new duplicate rows, and a column that is entirely
null when processed keeps its nulls, so a first pass's output need not
satisfy these premises.) -/
theorem claim_c3_clean_fixed_point (t : Table)
    (hdup : dupCount t.rows = 0)
    (hnull : ∀ j, j < t.dtypes.length → missingCount j t.rows = 0) :
    cleanPass t = (t, []) := by
  have h1 : rowsAfterDedup t.rows = t.rows := by
    unfold rowsAfterDedup
    rw [hdup]
    simp
  have h2 : dedupSteps t.rows = [] := by
    unfold dedupSteps
    rw [hdup]
    simp
  unfold cleanPass
  rw [h1, h2,
    foldCols_of_no_missing _ _ _ _ (fun j hj => hnull j (List.mem_range.mp hj))]
  rfl

theorem claim_c3_clean_fixed_point_witness :
    cleanPass tabClean = (tabClean, []) :=
  claim_c3_clean_fixed_point tabClean (by decide)
    (fun j hj => by
      have hl : tabClean.dtypes.length = 1 := by decide
      rw [hl] at hj
      have hj0 : j = 0 := by omega
      subst hj0
      decide)

theorem foldCols_nil (o : Nat) (dts : List Bool) (rows : List Row) :
    foldCols o dts [] rows = (rows, []) := rfl

theorem foldCols_cons (o : Nat) (dts : List Bool) (j : Nat) (rest : List Nat)
    (rows : List Row) :
    foldCols o dts (j :: rest) rows
      = ((foldCols o dts rest (processColumn o (dts.getD j false) j rows).1).1,
         (processColumn o (dts.getD j false) j rows).2
           ++ (foldCols o dts rest (processColumn o (dts.getD j false) j rows).1).2) := rfl

theorem cleanPass_tabDupAfterFill_eval :
    cleanPass tabDupAfterFill
      = (⟨[false, false],
          [[some (Val.str "x"), some (Val.str "a")],
           [some (Val.str "x"), some (Val.str "a")]]⟩,
         [Step.fillStr 1 1 (Val.str "a")]) := by
  have hdup : dupCount tabDupAfterFill.rows = 0 := by decide
  have hrad : rowsAfterDedup tabDupAfterFill.rows = tabDupAfterFill.rows := by
    unfold rowsAfterDedup
    rw [hdup]
    simp
  have hds : dedupSteps tabDupAfterFill.rows = [] := by
    unfold dedupSteps
    rw [hdup]
    simp
  have h0 : missingCount 0 tabDupAfterFill.rows = 0 := by decide
  have h1c : 0 < missingCount 1 tabDupAfterFill.rows := by decide
  have h10 : tabDupAfterFill.rows.length ≤ missingCount 1 tabDupAfterFill.rows * 10 := by
    decide
  have hmode : (modeVal (colCells 1 tabDupAfterFill.rows)).getD (Val.str "Unknown")
      = Val.str "a" := by decide
  have hest : estCount (missingPct 1 tabDupAfterFill.rows) tabDupAfterFill.rows.length
      = 1 := by
    have hc : missingCount 1 tabDupAfterFill.rows = 1 := by decide
    have hl : tabDupAfterFill.rows.length = 2 := by decide
    unfold estCount missingPct
    rw [hc, hl]
    norm_num [Int.toNat_ofNat]
  have hfill : fillColWith 1 (some (Val.str "a")) tabDupAfterFill.rows
      = [[some (Val.str "x"), some (Val.str "a")],
         [some (Val.str "x"), some (Val.str "a")]] := by decide
  have hrange : List.range tabDupAfterFill.dtypes.length = [0, 1] := by decide
  have hdt1 : tabDupAfterFill.dtypes.getD 1 false = false := by decide
  unfold cleanPass
  rw [hrange, hrad, hds, foldCols_cons,
    processColumn_of_no_missing _ _ _ _ h0, foldCols_cons]
  simp only [hdt1]
  rw [processColumn_impute_str _ _ _ h1c h10, hmode, hest, hfill, foldCols_nil]
  rfl

theorem cleanPass_tabDupAfterFill_second_eval :
    cleanPass (cleanPass tabDupAfterFill).1
      = (⟨[false, false], [[some (Val.str "x"), some (Val.str "a")]]⟩, [Step.dedup 1]) := by
  rw [cleanPass_tabDupAfterFill_eval]
  have hdup : dupCount [[some (Val.str "x"), some (Val.str "a")],
      [some (Val.str "x"), some (Val.str "a")]] = 1 := by decide
  have hrad : rowsAfterDedup [[some (Val.str "x"), some (Val.str "a")],
      [some (Val.str "x"), some (Val.str "a")]]
      = [[some (Val.str "x"), some (Val.str "a")]] := by
    unfold rowsAfterDedup
    rw [hdup]
    decide
  have hds : dedupSteps [[some (Val.str "x"), some (Val.str "a")],
      [some (Val.str "x"), some (Val.str "a")]] = [Step.dedup 1] := by
    unfold dedupSteps
    rw [hdup]
    simp
  unfold cleanPass
  simp only []
  rw [hrad, hds]
  rw [foldCols_of_no_missing _ _ _ _ (by decide)]
  rfl

/-- C3 (counterexample): running the cleaning pass twice on
`tabDupAfterFill` is not step-free on the second pass: mode imputation
made the two rows identical, so the second pass removes a duplicate row,
logs a `dedup` step, and returns a different table.  Clean output is not
a fixed point of clean. -/
theorem claim_c3_counterexample :
    (cleanPass (cleanPass tabDupAfterFill).1).2 ≠ [] ∧
    (cleanPass (cleanPass tabDupAfterFill).1).1 ≠ (cleanPass tabDupAfterFill).1 := by
  rw [cleanPass_tabDupAfterFill_second_eval, cleanPass_tabDupAfterFill_eval]
  constructor
  · simp
  · decide

theorem foldCols_append (o : Nat) (dts : List Bool) :
    ∀ (l1 l2 : List Nat) (rows : List Row),
      foldCols o dts (l1 ++ l2) rows
        = ((foldCols o dts l2 (foldCols o dts l1 rows).1).1,
           (foldCols o dts l1 rows).2
             ++ (foldCols o dts l2 (foldCols o dts l1 rows).1).2) := by
  intro l1
  induction l1 with
  | nil =>
    intro l2 rows
    simp [foldCols_nil]
  | cons j rest ih =>
    intro l2 rows
    rw [List.cons_append, foldCols_cons, foldCols_cons, ih]
    simp [List.append_assoc]

theorem foldCols_range_steps (o : Nat) (dts : List Bool) (rows0 : List Row) :
    ∀ n, (foldCols o dts (List.range n) rows0).2
      = ((List.range n).map (fun j =>
          (processColumn o (dts.getD j false) j
            (foldCols o dts (List.range j) rows0).1).2)).flatten := by
  intro n
  induction n with
  | zero => rfl
  | succ m ih =>
    rw [List.range_succ, foldCols_append, List.map_append, List.flatten_append, ← ih]
    congr 1

theorem cleanPass_steps_decompose (t : Table) :
    (cleanPass t).2 = dedupSteps t.rows
      ++ ((List.range t.dtypes.length).map (fun j =>
           (processColumn t.rows.length (t.dtypes.getD j false) j (stateBefore t j)).2)).flatten := by
  unfold cleanPass stateBefore
  simp only []
  rw [foldCols_range_steps]

theorem processColumn_steps_mem (o : Nat) (b : Bool) (j : Nat) (rows : List Row) :
    ∀ s ∈ (processColumn o b j rows).2,
      s = Step.dropRows j (rows.length - (dropNullRows j rows).length) ∨
      s = Step.fillNum j (estCount (missingPct j rows) o) (medianQ (colNums j rows)) ∨
      s = Step.fillStr j (estCount (missingPct j rows) o)
          ((modeVal (colCells j rows)).getD (Val.str "Unknown")) := by
  intro s hs
  unfold processColumn at hs
  by_cases h1 : 0 < missingPct j rows
  · rw [if_pos h1] at hs
    by_cases h2 : missingPct j rows < 10
    · rw [if_pos h2] at hs
      simp only [] at hs
      by_cases h3 : 0 < rows.length - (dropNullRows j rows).length
      · rw [if_pos h3] at hs
        simp at hs
        exact Or.inl hs
      · rw [if_neg h3] at hs
        simp at hs
    · rw [if_neg h2] at hs
      cases b with
      | true =>
        rw [if_pos rfl] at hs
        simp at hs
        exact Or.inr (Or.inl hs)
      | false =>
        rw [if_neg (by simp)] at hs
        simp at hs
        exact Or.inr (Or.inr hs)
  · rw [if_neg h1] at hs
    simp at hs

/-- C4 (amended): the estimated affected-cell count recorded by an
imputation step for column `j` equals `int(missing_pct * original_rows /
100)` where `missing_pct` is the missing percentage of column `j` in the
table state at the time the column is processed (after duplicate removal
and earlier columns' drops) — not the pre-processing ratio of the
original input table — while `original_rows` is the original row count. -/
theorem claim_c4_estimate_from_current_state (t : Table) :
    ∀ j c, ((∃ m, Step.fillNum j c m ∈ (cleanPass t).2) ∨
            (∃ v, Step.fillStr j c v ∈ (cleanPass t).2)) →
      c = estCount (missingPct j (stateBefore t j)) t.rows.length := by
  have key : ∀ s, s ∈ (cleanPass t).2 →
      ∀ j c, (∃ m, s = Step.fillNum j c m) ∨ (∃ v, s = Step.fillStr j c v) →
        c = estCount (missingPct j (stateBefore t j)) t.rows.length := by
    intro s hs j c hshape
    rw [cleanPass_steps_decompose] at hs
    rcases List.mem_append.mp hs with hd | hf
    · unfold dedupSteps at hd
      split at hd
      · simp at hd
        rcases hshape with ⟨m, hm⟩ | ⟨v, hv⟩
        · rw [hd] at hm
          exact absurd hm (by simp)
        · rw [hd] at hv
          exact absurd hv (by simp)
      · simp at hd
    · rcases List.mem_flatten.mp hf with ⟨l, hl, hsl⟩
      rcases List.mem_map.mp hl with ⟨j2, hj2, hlj⟩
      subst hlj
      rcases processColumn_steps_mem _ _ _ _ s hsl with h | h | h
      · rcases hshape with ⟨m, hm⟩ | ⟨v, hv⟩
        · rw [hm] at h
          exact absurd h (by simp)
        · rw [hv] at h
          exact absurd h (by simp)
      · rcases hshape with ⟨m, hm⟩ | ⟨v, hv⟩
        · rw [hm] at h
          have hj' : j = j2 := by
            have := congrArg (fun st => match st with
              | Step.fillNum c2 _ _ => c2
              | _ => 0) h
            simpa using this
          have hc' : c = estCount (missingPct j2 (stateBefore t j2)) t.rows.length := by
            have := congrArg (fun st => match st with
              | Step.fillNum _ e _ => e
              | _ => 0) h
            simpa using this
          rw [hc', hj']
        · rw [hv] at h
          exact absurd h (by simp)
      · rcases hshape with ⟨m, hm⟩ | ⟨v, hv⟩
        · rw [hm] at h
          exact absurd h (by simp)
        · rw [hv] at h
          have hj' : j = j2 := by
            have := congrArg (fun st => match st with
              | Step.fillStr c2 _ _ => c2
              | _ => 0) h
            simpa using this
          have hc' : c = estCount (missingPct j2 (stateBefore t j2)) t.rows.length := by
            have := congrArg (fun st => match st with
              | Step.fillStr _ e _ => e
              | _ => 0) h
            simpa using this
          rw [hc', hj']
  intro j c h
  rcases h with ⟨m, hm⟩ | ⟨v, hv⟩
  · exact key _ hm j c (Or.inl ⟨m, rfl⟩)
  · exact key _ hv j c (Or.inr ⟨v, rfl⟩)

theorem cleanPass_tabEstimate_eval :
    cleanPass tabEstimate
      = (⟨[true, true],
          [[some (Val.num 0), some (Val.num 5)],
           [some (Val.num 1), some (Val.num 6)],
           [some (Val.num 2), some (Val.num 6)],
           [some (Val.num 3), some (Val.num 6)],
           [some (Val.num 4), some (Val.num 7)]]⟩,
         [Step.dedup 5, Step.fillNum 1 6 (some 6)]) := by
  have hdup : dupCount tabEstimate.rows = 5 := by decide
  have hdd : dropDupFirst tabEstimate.rows
      = [[some (Val.num 0), some (Val.num 5)],
         [some (Val.num 1), none],
         [some (Val.num 2), none],
         [some (Val.num 3), none],
         [some (Val.num 4), some (Val.num 7)]] := by decide
  have hrad : rowsAfterDedup tabEstimate.rows
      = [[some (Val.num 0), some (Val.num 5)],
         [some (Val.num 1), none],
         [some (Val.num 2), none],
         [some (Val.num 3), none],
         [some (Val.num 4), some (Val.num 7)]] := by
    unfold rowsAfterDedup
    rw [hdup, if_pos (by norm_num), hdd]
  have hds : dedupSteps tabEstimate.rows = [Step.dedup 5] := by
    unfold dedupSteps
    rw [hdup, if_pos (by norm_num)]
  have h0 : missingCount 0 [[some (Val.num 0), some (Val.num 5)],
      [some (Val.num 1), none],
      [some (Val.num 2), none],
      [some (Val.num 3), none],
      [some (Val.num 4), some (Val.num 7)]] = 0 := by decide
  have h1c : 0 < missingCount 1 [[some (Val.num 0), some (Val.num 5)],
      [some (Val.num 1), none],
      [some (Val.num 2), none],
      [some (Val.num 3), none],
      [some (Val.num 4), some (Val.num 7)]] := by decide
  have h10 : ([[some (Val.num 0), some (Val.num 5)],
      [some (Val.num 1), none],
      [some (Val.num 2), none],
      [some (Val.num 3), none],
      [some (Val.num 4), some (Val.num 7)]] : List Row).length
        ≤ missingCount 1 [[some (Val.num 0), some (Val.num 5)],
          [some (Val.num 1), none],
          [some (Val.num 2), none],
          [some (Val.num 3), none],
          [some (Val.num 4), some (Val.num 7)]] * 10 := by decide
  have hnums : colNums 1 [[some (Val.num 0), some (Val.num 5)],
      [some (Val.num 1), none],
      [some (Val.num 2), none],
      [some (Val.num 3), none],
      [some (Val.num 4), some (Val.num 7)]] = [5, 7] := by decide
  have hmed : medianQ [5, 7] = some 6 := by
    unfold medianQ
    norm_num [List.insertionSort, List.orderedInsert]
  have hest : estCount (missingPct 1 [[some (Val.num 0), some (Val.num 5)],
      [some (Val.num 1), none],
      [some (Val.num 2), none],
      [some (Val.num 3), none],
      [some (Val.num 4), some (Val.num 7)]]) tabEstimate.rows.length = 6 := by
    have hc : missingCount 1 [[some (Val.num 0), some (Val.num 5)],
        [some (Val.num 1), none],
        [some (Val.num 2), none],
        [some (Val.num 3), none],
        [some (Val.num 4), some (Val.num 7)]] = 3 := by decide
    have hl5 : ([[some (Val.num 0), some (Val.num 5)],
        [some (Val.num 1), none],
        [some (Val.num 2), none],
        [some (Val.num 3), none],
        [some (Val.num 4), some (Val.num 7)]] : List Row).length = 5 := by decide
    have hl10 : tabEstimate.rows.length = 10 := by decide
    unfold estCount missingPct
    rw [hc, hl5, hl10]
    norm_num [Int.toNat_ofNat]
    decide
  have hfill : fillColWith 1 (some (Val.num 6)) [[some (Val.num 0), some (Val.num 5)],
      [some (Val.num 1), none],
      [some (Val.num 2), none],
      [some (Val.num 3), none],
      [some (Val.num 4), some (Val.num 7)]]
      = [[some (Val.num 0), some (Val.num 5)],
         [some (Val.num 1), some (Val.num 6)],
         [some (Val.num 2), some (Val.num 6)],
         [some (Val.num 3), some (Val.num 6)],
         [some (Val.num 4), some (Val.num 7)]] := by decide
  have hrange : List.range tabEstimate.dtypes.length = [0, 1] := by decide
  have hdt1 : tabEstimate.dtypes.getD 1 false = true := by decide
  unfold cleanPass
  rw [hrange, hrad, hds, foldCols_cons,
    processColumn_of_no_missing _ _ _ _ h0, foldCols_cons]
  simp only [hdt1]
  rw [processColumn_impute_num _ _ _ h1c h10, hnums, hmed]
  rw [show Option.map Val.num (some (6 : ℚ)) = some (Val.num 6) from rfl]
  rw [hest, hfill, foldCols_nil]
  rfl

/-- C4 (counterexample): on `tabEstimate` the imputation step for column
1 records an estimated count of 6 cells — `int(60% × 10)`, computed from
the 60% missing ratio of the deduplicated 5-row state — whereas the
claim's formula, the pre-processing ratio of the original input table
times the original row count, gives `int(30% × 10) = 3`. -/
theorem claim_c4_counterexample :
    Step.fillNum 1 6 (some 6) ∈ (cleanPass tabEstimate).2 ∧
    estCount (missingPct 1 tabEstimate.rows) tabEstimate.rows.length = 3 ∧
    (6 : Nat) ≠ 3 := by
  refine ⟨?_, ?_, by norm_num⟩
  · rw [cleanPass_tabEstimate_eval]
    simp
  · have hc : missingCount 1 tabEstimate.rows = 3 := by decide
    have hl : tabEstimate.rows.length = 10 := by decide
    unfold estCount missingPct
    rw [hc, hl]
    norm_num [Int.toNat_ofNat]
    decide

theorem cleanPass_tabMedianFill_eval :
    cleanPass tabMedianFill
      = (⟨[true], [[some (Val.num 1)], [some (Val.num 1)]]⟩,
         [Step.fillNum 0 1 (some 1)]) := by
  have hdup : dupCount tabMedianFill.rows = 0 := by decide
  have hrad : rowsAfterDedup tabMedianFill.rows = tabMedianFill.rows := by
    unfold rowsAfterDedup
    rw [hdup]
    simp
  have hds : dedupSteps tabMedianFill.rows = [] := by
    unfold dedupSteps
    rw [hdup]
    simp
  have h1c : 0 < missingCount 0 tabMedianFill.rows := by decide
  have h10 : tabMedianFill.rows.length ≤ missingCount 0 tabMedianFill.rows * 10 := by
    decide
  have hnums : colNums 0 tabMedianFill.rows = [1] := by decide
  have hmed : medianQ [1] = some 1 := by decide
  have hest : estCount (missingPct 0 tabMedianFill.rows) tabMedianFill.rows.length
      = 1 := by
    have hc : missingCount 0 tabMedianFill.rows = 1 := by decide
    have hl : tabMedianFill.rows.length = 2 := by decide
    unfold estCount missingPct
    rw [hc, hl]
    norm_num [Int.toNat_ofNat]
  have hfill : fillColWith 0 (some (Val.num 1)) tabMedianFill.rows
      = [[some (Val.num 1)], [some (Val.num 1)]] := by decide
  have hrange : List.range tabMedianFill.dtypes.length = [0] := by decide
  have hdt : tabMedianFill.dtypes.getD 0 false = true := by decide
  unfold cleanPass
  rw [hrange, hrad, hds, foldCols_cons]
  simp only [hdt]
  rw [processColumn_impute_num _ _ _ h1c h10, hnums, hmed]
  rw [show Option.map Val.num (some (1 : ℚ)) = some (Val.num 1) from rfl]
  rw [hest, hfill, foldCols_nil]
  rfl

theorem claim_c4_estimate_from_current_state_witness :
    (1 : Nat) = estCount (missingPct 0 (stateBefore tabMedianFill 0))
        tabMedianFill.rows.length :=
  claim_c4_estimate_from_current_state tabMedianFill 0 1
    (Or.inl ⟨some 1, by rw [cleanPass_tabMedianFill_eval]; simp⟩)

theorem fillColWith_length (j : Nat) (v : Option Val) (rows : List Row) (W : Nat)
    (h : ∀ r ∈ rows, r.length = W) : ∀ r ∈ fillColWith j v rows, r.length = W := by
  unfold fillColWith
  cases v with
  | none => exact h
  | some w =>
    intro r hr
    rcases List.mem_map.mp hr with ⟨r0, hr0, hre⟩
    rw [← hre, List.length_set]
    exact h r0 hr0

theorem processColumn_length (o : Nat) (b : Bool) (j : Nat) (rows : List Row) (W : Nat)
    (h : ∀ r ∈ rows, r.length = W) :
    ∀ r ∈ (processColumn o b j rows).1, r.length = W := by
  unfold processColumn
  by_cases h1 : 0 < missingPct j rows
  · rw [if_pos h1]
    by_cases h2 : missingPct j rows < 10
    · rw [if_pos h2]
      intro r hr
      simp only [] at hr
      exact h r (List.mem_of_mem_filter hr)
    · rw [if_neg h2]
      cases b with
      | true =>
        rw [if_pos rfl]
        exact fillColWith_length _ _ _ _ h
      | false =>
        rw [if_neg (by simp)]
        intro r hr
        have hr2 : r ∈ fillColWith j
            (some ((modeVal (colCells j rows)).getD (Val.str "Unknown"))) rows := hr
        exact fillColWith_length _ _ _ _ h r hr2
  · rw [if_neg h1]
    exact h

theorem missingCount_zero_of_filter (i : Nat) (p : Row → Bool) (rows : List Row)
    (h : missingCount i rows = 0) : missingCount i (rows.filter p) = 0 := by
  unfold missingCount colCells at h ⊢
  have hsub := (List.filter_sublist rows (p := p)).map (fun r : Row => r.getD i none)
  have := hsub.countP_le Option.isNone
  omega

theorem missingCount_fill_other (i j : Nat) (v : Val) (rows : List Row) (hij : i ≠ j)
    (h : missingCount i rows = 0) :
    missingCount i (fillColWith j (some v) rows) = 0 := by
  unfold missingCount colCells at h ⊢
  simp only [fillColWith]
  rw [List.map_map]
  have hcell : ∀ r : Row,
      ((r.set j (some ((r.getD j none).getD v))).getD i none) = r.getD i none := by
    intro r
    simp [List.getD, List.getElem?_set_ne (Ne.symm hij)]
  calc ((rows.map ((fun r : Row => r.getD i none)
            ∘ fun r : Row => r.set j (some ((r.getD j none).getD v)))).countP Option.isNone)
      = ((rows.map (fun r : Row => r.getD i none)).countP Option.isNone) := by
        congr 1
        exact List.map_congr_left (fun r _ => hcell r)
    _ = 0 := h

theorem missingCount_dropNullRows (j : Nat) (rows : List Row) :
    missingCount j (dropNullRows j rows) = 0 := by
  unfold missingCount colCells dropNullRows
  rw [List.countP_eq_zero]
  intro c hc
  rcases List.mem_map.mp hc with ⟨r, hr, hre⟩
  have h2 := List.of_mem_filter hr
  rw [← hre]
  simpa [List.getD] using Option.isSome_iff_ne_none.mp h2

theorem missingCount_fill_self (j : Nat) (v : Val) (rows : List Row)
    (hrect : ∀ r ∈ rows, j < r.length) :
    missingCount j (fillColWith j (some v) rows) = 0 := by
  unfold missingCount colCells fillColWith
  rw [List.countP_eq_zero]
  intro c hc
  rcases List.mem_map.mp hc with ⟨r1, hr1, hre⟩
  rcases List.mem_map.mp hr1 with ⟨r0, hr0, hr0e⟩
  rw [← hre, ← hr0e]
  have hj := hrect r0 hr0
  simp [List.getD, List.getElem?_set_eq_of_lt _ hj]

theorem medianQ_isSome (l : List ℚ) (h : l ≠ []) : ∃ m, medianQ l = some m := by
  unfold medianQ
  have hlen : (l.insertionSort (· ≤ ·)).length = l.length := List.length_insertionSort _ _
  have hne : ¬ (l.insertionSort (· ≤ ·)).length = 0 := by
    rw [hlen]
    simpa using (List.length_pos.mpr h).ne'
  rw [if_neg hne]
  split
  · exact ⟨_, rfl⟩
  · exact ⟨_, rfl⟩

theorem colNums_ne_nil (j : Nat) (rows : List Row) (r : Row) (q : ℚ)
    (hr : r ∈ rows) (hq : r.getD j none = some (Val.num q)) :
    colNums j rows ≠ [] := by
  have hmem : q ∈ colNums j rows := by
    unfold colNums colCells
    rw [List.mem_filterMap]
    exact ⟨r.getD j none, List.mem_map.mpr ⟨r, hr, rfl⟩, by rw [hq]⟩
  exact List.ne_nil_of_mem hmem

theorem processColumn_clears_column (o : Nat) (b : Bool) (j : Nat) (rows : List Row)
    (hrect : ∀ r ∈ rows, j < r.length)
    (hmedian : b = true → rows = [] ∨ ∃ r ∈ rows, ∃ q, r.getD j none = some (Val.num q)) :
    missingCount j (processColumn o b j rows).1 = 0 := by
  unfold processColumn
  by_cases h1 : 0 < missingPct j rows
  · rw [if_pos h1]
    by_cases h2 : missingPct j rows < 10
    · rw [if_pos h2]
      exact missingCount_dropNullRows j rows
    · rw [if_neg h2]
      cases b with
      | true =>
        rw [if_pos rfl]
        rcases hmedian rfl with hnil | ⟨r, hr, q, hq⟩
        · subst hnil
          simp [fillColWith, missingCount, colCells]
          split
          · simp
          · simp
        · obtain ⟨m, hm⟩ := medianQ_isSome _ (colNums_ne_nil j rows r q hr hq)
          rw [hm]
          exact missingCount_fill_self j (Val.num m) rows hrect
      | false =>
        rw [if_neg (by simp)]
        exact missingCount_fill_self j _ rows hrect
  · rw [if_neg h1]
    exact missingCount_eq_zero_of_pct_not_pos j rows h1

theorem processColumn_preserves_zero (o : Nat) (b : Bool) (j : Nat) (rows : List Row)
    (i : Nat) (hij : i ≠ j) (h : missingCount i rows = 0) :
    missingCount i (processColumn o b j rows).1 = 0 := by
  unfold processColumn
  by_cases h1 : 0 < missingPct j rows
  · rw [if_pos h1]
    by_cases h2 : missingPct j rows < 10
    · rw [if_pos h2]
      exact missingCount_zero_of_filter i _ rows h
    · rw [if_neg h2]
      cases b with
      | true =>
        rw [if_pos rfl]
        cases hmv : medianQ (colNums j rows) with
        | none => exact h
        | some m => exact missingCount_fill_other i j (Val.num m) rows hij h
      | false =>
        rw [if_neg (by simp)]
        exact missingCount_fill_other i j _ rows hij h
  · rw [if_neg h1]
    exact h

theorem mem_of_mem_dropDupAux :
    ∀ (l seen : List Row) (r : Row), r ∈ dropDupAux seen l → r ∈ l := by
  intro l
  induction l with
  | nil =>
    intro seen r h
    simp [dropDupAux] at h
  | cons a rs ih =>
    intro seen r h
    unfold dropDupAux at h
    by_cases ha : a ∈ seen
    · rw [if_pos ha] at h
      exact List.mem_cons_of_mem a (ih seen r h)
    · rw [if_neg ha] at h
      rcases List.mem_cons.mp h with h1 | h1
      · rw [h1]
        exact List.mem_cons_self a rs
      · exact List.mem_cons_of_mem a (ih _ r h1)

theorem mem_rowsAfterDedup (rows : List Row) (r : Row) (h : r ∈ rowsAfterDedup rows) :
    r ∈ rows := by
  unfold rowsAfterDedup at h
  split at h
  · exact mem_of_mem_dropDupAux _ _ _ h
  · exact h

theorem stateBefore_succ (t : Table) (n : Nat) :
    stateBefore t (n + 1)
      = (processColumn t.rows.length (t.dtypes.getD n false) n (stateBefore t n)).1 := by
  unfold stateBefore
  rw [List.range_succ, foldCols_append]
  simp only []
  rw [foldCols_cons, foldCols_nil]

theorem cleanPass_state_invariant (t : Table)
    (hrect : ∀ r ∈ t.rows, r.length = t.dtypes.length)
    (hnum : ∀ j, j < t.dtypes.length → t.dtypes.getD j false = true →
      stateBefore t j = [] ∨ ∃ r ∈ stateBefore t j, ∃ q, r.getD j none = some (Val.num q)) :
    ∀ n, n ≤ t.dtypes.length →
      (∀ r ∈ stateBefore t n, r.length = t.dtypes.length) ∧
      (∀ i, i < n → missingCount i (stateBefore t n) = 0) := by
  intro n
  induction n with
  | zero =>
    intro _
    constructor
    · intro r hr
      exact hrect r (mem_rowsAfterDedup _ r hr)
    · intro i hi
      omega
  | succ m ih =>
    intro hle
    have hm : m < t.dtypes.length := by omega
    obtain ⟨ihrect, ihzero⟩ := ih (by omega)
    rw [stateBefore_succ]
    constructor
    · exact processColumn_length _ _ _ _ _ ihrect
    · intro i hi
      by_cases he : i = m
      · subst he
        apply processColumn_clears_column
        · intro r hr
          rw [ihrect r hr]
          exact hm
        · intro hb
          exact hnum i hm hb
      · have him : i < m := by omega
        exact processColumn_preserves_zero _ _ _ _ _ he (ihzero i him)

/-- C10 (amended): for every rectangular table such that no numeric
column is entirely null in the table state at the moment it is processed
(rather than in the original input), the cleaned table contains no null
in any column — every column ends null-free, whether it was row-dropped
or imputed. -/
theorem claim_c10_output_null_free (t : Table)
    (hrect : ∀ r ∈ t.rows, r.length = t.dtypes.length)
    (hnum : ∀ j, j < t.dtypes.length → t.dtypes.getD j false = true →
      stateBefore t j = [] ∨ ∃ r ∈ stateBefore t j, ∃ q, r.getD j none = some (Val.num q)) :
    ∀ j, j < t.dtypes.length → missingCount j (cleanPass t).1.rows = 0 := by
  intro j hj
  have h := (cleanPass_state_invariant t hrect hnum t.dtypes.length (le_refl _)).2 j hj
  have heq : (cleanPass t).1.rows = stateBefore t t.dtypes.length := rfl
  rw [heq]
  exact h

theorem claim_c10_output_null_free_witness :
    missingCount 0 (cleanPass tabMedianFill).1.rows = 0 :=
  claim_c10_output_null_free tabMedianFill (by decide)
    (fun j hj hb => by
      have hl : tabMedianFill.dtypes.length = 1 := by decide
      rw [hl] at hj
      have hj0 : j = 0 := by omega
      subst hj0
      right
      have h0 : stateBefore tabMedianFill 0 = tabMedianFill.rows := by
        show rowsAfterDedup tabMedianFill.rows = tabMedianFill.rows
        unfold rowsAfterDedup
        rw [show dupCount tabMedianFill.rows = 0 from by decide]
        simp
      rw [h0]
      exact ⟨[some (Val.num 1)], by decide, 1, by decide⟩)
    0 (by decide)

theorem cleanPass_tabNullsSurvive_eval :
    cleanPass tabNullsSurvive
      = (⟨[true, true], rowsDropped0⟩,
         [Step.dropRows 0 1, Step.fillNum 1 11 none]) := by
  have hdup : dupCount tabNullsSurvive.rows = 0 := by decide
  have hrad : rowsAfterDedup tabNullsSurvive.rows = tabNullsSurvive.rows := by
    unfold rowsAfterDedup
    rw [hdup]
    simp
  have hds : dedupSteps tabNullsSurvive.rows = [] := by
    unfold dedupSteps
    rw [hdup]
    simp
  have h0c : 0 < missingCount 0 tabNullsSurvive.rows := by decide
  have h0t : missingCount 0 tabNullsSurvive.rows * 10 < tabNullsSurvive.rows.length := by
    decide
  have hdropc : tabNullsSurvive.rows.length
      - (dropNullRows 0 tabNullsSurvive.rows).length = 1 := by decide
  have hdnr : dropNullRows 0 tabNullsSurvive.rows = rowsDropped0 := by decide
  have h1c : 0 < missingCount 1 rowsDropped0 := by decide
  have h1t : rowsDropped0.length ≤ missingCount 1 rowsDropped0 * 10 := by decide
  have hnums : colNums 1 rowsDropped0 = [] := by decide
  have hmed : medianQ [] = none := by decide
  have hest : estCount (missingPct 1 rowsDropped0) tabNullsSurvive.rows.length = 11 := by
    have hc : missingCount 1 rowsDropped0 = 10 := by decide
    have hl : rowsDropped0.length = 10 := by decide
    have hl11 : tabNullsSurvive.rows.length = 11 := by decide
    unfold estCount missingPct
    rw [hc, hl, hl11]
    norm_num [Int.toNat_ofNat]
    decide
  have hrange : List.range tabNullsSurvive.dtypes.length = [0, 1] := by decide
  have hdt1 : tabNullsSurvive.dtypes.getD 1 false = true := by decide
  unfold cleanPass
  rw [hrange, hrad, hds, foldCols_cons]
  rw [processColumn_drop_eq _ _ _ _ h0c h0t, hdropc, if_pos (by norm_num), hdnr]
  rw [foldCols_cons]
  simp only [hdt1]
  rw [processColumn_impute_num _ _ _ h1c h1t, hnums, hmed]
  rw [show Option.map Val.num (none : Option ℚ) = none from rfl]
  rw [show fillColWith 1 none rowsDropped0 = rowsDropped0 from rfl]
  rw [hest, foldCols_nil]
  rfl

/-- C10 (counterexample): in `tabNullsSurvive` no column — in particular
no numeric column — is entirely null in the input, yet the cleaned
output still has nulls: dropping the first column's null row leaves the
second, numeric column entirely null, its median is NaN, and `fillna`
leaves all ten nulls in place. -/
theorem claim_c10_counterexample :
    (∀ j, j < tabNullsSurvive.dtypes.length →
      ∃ r ∈ tabNullsSurvive.rows, (r.getD j none).isSome) ∧
    0 < missingCount 1 (cleanPass tabNullsSurvive).1.rows := by
  constructor
  · decide
  · rw [cleanPass_tabNullsSurvive_eval]
    decide
